import Mathlib

/-!
Shallow embedding of `src/chunk_type.rs`: the `ChunkType` value type, its two
fallible constructors (`TryFrom<Chunk>::try_from` and `FromStr::from_str`),
the byte extraction `bytes`, the case-derived flag accessors, and the
`Display` rendering.  Rust strings are modelled as lists of Unicode scalar
values (`List Char`), with the UTF-8 encoding (`str::as_bytes`) and strict
UTF-8 decoding (`String::from_utf8`) made explicit.
-/

namespace Png

/-- Modelled from the spec: `Chunk` is `crate::chunk::Chunk`, whose defining
module is not under `src/`.  Its use inside `chunk_type.rs` (built from the
array literal `[82, 117, 83, 116]`, indexed `self.0[0]`..`self.0[3]`, and
produced by `from_slice` from a local `[u8; 4]`) fixes it as the byte array
`[u8; 4]`.  Bytes are `Nat`s; the `u8` range `< 256` is a hypothesis where a
claim needs it. -/
structure Chunk where
  b0 : Nat
  b1 : Nat
  b2 : Nat
  b3 : Nat
deriving DecidableEq

/-- Rust `u8::is_ascii`: the byte is in the ASCII range `0..=127`. -/
def u8_is_ascii (b : Nat) : Bool := b ≤ 0x7F

/-- Rust `u8::is_ascii_uppercase`: the byte is in `b'A'..=b'Z'`. -/
def u8_is_ascii_uppercase (b : Nat) : Bool := 65 ≤ b && b ≤ 90

/-- Rust `u8::is_ascii_lowercase`: the byte is in `b'a'..=b'z'`. -/
def u8_is_ascii_lowercase (b : Nat) : Bool := 97 ≤ b && b ≤ 122

/-- Rust `u8::is_ascii_alphabetic`.  The source of `chunk_type.rs` never calls
it; it is needed to state the spec's claims about the constructors. -/
def u8_is_ascii_alphabetic (b : Nat) : Bool :=
  u8_is_ascii_uppercase b || u8_is_ascii_lowercase b

/-- `<[u8]>::is_ascii` on the 4-byte array (through slice deref): every byte is
ASCII.  This, not `is_ascii_alphabetic`, is what `try_from` tests. -/
def Chunk.is_ascii (v : Chunk) : Bool :=
  u8_is_ascii v.b0 && u8_is_ascii v.b1 && u8_is_ascii v.b2 && u8_is_ascii v.b3

/-- The 4 bytes of the array in order (`Vec::from(self.0)`). -/
def Chunk.toList (v : Chunk) : List Nat := [v.b0, v.b1, v.b2, v.b3]

/-- `struct ChunkType(Chunk)`: a newtype over the 4-byte array.  The derived
`PartialEq`/`Eq` is exact field equality, mirrored by structure equality. -/
structure ChunkType where
  chunk : Chunk
deriving DecidableEq

/-- `enum ChunkError`. -/
inductive ChunkError where
  | ErrorConvertFromString (c : Chunk)
  | InvalidChunk
deriving DecidableEq

/-- Rust `Result<T, E>`. -/
inductive RustResult (α : Type) (ε : Type) where
  | ok (val : α)
  | err (e : ε)
deriving DecidableEq

/-- `impl TryFrom<Chunk> for ChunkType`: `Ok(ChunkType(value))` when
`value.is_ascii()`, else `Err(ChunkError::InvalidChunk)`. -/
def ChunkType.try_from (value : Chunk) : RustResult ChunkType ChunkError :=
  if value.is_ascii then .ok ⟨value⟩ else .err .InvalidChunk

/-- UTF-8 encoding of one Unicode scalar value: the bytes Rust's `str`
stores for one `char`. -/
def utf8EncodeChar (c : Char) : List Nat :=
  let n := c.toNat
  if n < 0x80 then [n]
  else if n < 0x800 then [0xC0 + n / 64, 0x80 + n % 64]
  else if n < 0x10000 then [0xE0 + n / 4096, 0x80 + n / 64 % 64, 0x80 + n % 64]
  else [0xF0 + n / 0x40000, 0x80 + n / 4096 % 64, 0x80 + n / 64 % 64, 0x80 + n % 64]

/-- Rust `str::as_bytes` on a string seen as its list of chars. -/
def str_as_bytes (s : List Char) : List Nat := s.flatMap utf8EncodeChar

/-- `ChunkType::from_slice`: `Some` exactly on length-4 slices; the source's
loop copies `array[0]`..`array[3]` into a `[u8; 4]` unchanged. -/
def ChunkType.from_slice (array : List Nat) : Option ChunkType :=
  match array with
  | [a, b, c, d] => some ⟨⟨a, b, c, d⟩⟩
  | _ => none

/-- `impl FromStr for ChunkType`.  Rust's `char::is_alphabetic` (the Unicode
`Alphabetic` property, std-library code outside this repository) enters as
the parameter `alpha`; each theorem assumes of it only what it needs, and
closed statements instantiate it with `char_is_alphabetic_latin1`. -/
def ChunkType.from_str (alpha : Char → Bool) (value : List Char) :
    RustResult ChunkType ChunkError :=
  let alpha_only := value.all alpha
  let parseable := ChunkType.from_slice (str_as_bytes value)
  match alpha_only, parseable with
  | true, some x => .ok x
  | _, _ => .err .InvalidChunk

/-- Modelled from the spec: Rust std's `char::is_alphabetic` is the Unicode
`Alphabetic` property, external data not in this repository.  This table is
that property restricted to code points below `0x100` (ASCII letters, `ª`,
`µ`, `º`, `À`–`Ö`, `Ø`–`ö`, `ø`–`ÿ`); every concrete character used in this
development lies in that range. -/
def char_is_alphabetic_latin1 (c : Char) : Bool :=
  u8_is_ascii_alphabetic c.toNat ||
  c.toNat == 0xAA || c.toNat == 0xB5 || c.toNat == 0xBA ||
  (0xC0 ≤ c.toNat && c.toNat ≤ 0xD6) ||
  (0xD8 ≤ c.toNat && c.toNat ≤ 0xF6) ||
  (0xF8 ≤ c.toNat && c.toNat ≤ 0xFF)

/-- One step of strict UTF-8 decoding: the scalar value encoded at the front
of the byte list and the remaining bytes, or `none` when the front is not a
valid encoding (bad lead or continuation byte, overlong form, surrogate,
beyond `0x10FFFF`). -/
def utf8DecodeOne : List Nat → Option (Nat × List Nat)
  | [] => none
  | b :: rest =>
    if b ≤ 0x7F then some (b, rest)
    else if b ≤ 0xC1 then none
    else if b ≤ 0xDF then
      match rest with
      | c1 :: rest2 =>
        if 0x80 ≤ c1 ∧ c1 ≤ 0xBF then
          some ((b - 0xC0) * 64 + (c1 - 0x80), rest2)
        else none
      | [] => none
    else if b ≤ 0xEF then
      match rest with
      | c1 :: c2 :: rest2 =>
        if 0x80 ≤ c1 ∧ c1 ≤ 0xBF ∧ 0x80 ≤ c2 ∧ c2 ≤ 0xBF ∧
            0x800 ≤ (b - 0xE0) * 4096 + (c1 - 0x80) * 64 + (c2 - 0x80) ∧
            ((b - 0xE0) * 4096 + (c1 - 0x80) * 64 + (c2 - 0x80) < 0xD800 ∨
              0xDFFF < (b - 0xE0) * 4096 + (c1 - 0x80) * 64 + (c2 - 0x80)) then
          some ((b - 0xE0) * 4096 + (c1 - 0x80) * 64 + (c2 - 0x80), rest2)
        else none
      | _ => none
    else if b ≤ 0xF4 then
      match rest with
      | c1 :: c2 :: c3 :: rest2 =>
        if 0x80 ≤ c1 ∧ c1 ≤ 0xBF ∧ 0x80 ≤ c2 ∧ c2 ≤ 0xBF ∧ 0x80 ≤ c3 ∧ c3 ≤ 0xBF ∧
            0x10000 ≤ (b - 0xF0) * 0x40000 + (c1 - 0x80) * 4096 +
              (c2 - 0x80) * 64 + (c3 - 0x80) ∧
            (b - 0xF0) * 0x40000 + (c1 - 0x80) * 4096 +
              (c2 - 0x80) * 64 + (c3 - 0x80) ≤ 0x10FFFF then
          some ((b - 0xF0) * 0x40000 + (c1 - 0x80) * 4096 +
            (c2 - 0x80) * 64 + (c3 - 0x80), rest2)
        else none
      | _ => none
    else none

set_option maxRecDepth 8192 in
/-- A successful decoding step consumes at least one byte. -/
theorem utf8DecodeOne_length {l : List Nat} {p : Nat × List Nat}
    (h : utf8DecodeOne l = some p) : p.2.length < l.length := by
  match l with
  | [] => simp [utf8DecodeOne] at h
  | b :: rest =>
    simp only [utf8DecodeOne] at h
    repeat' split at h
    all_goals first
      | (cases h; simp <;> omega)
      | exact Option.noConfusion h

/-- Strict UTF-8 decoding of a whole byte list, the acceptance semantics of
`String::from_utf8`: the decoded scalar values, or `none` when the bytes are
not valid UTF-8. -/
def utf8Decode (l : List Nat) : Option (List Char) :=
  match h : utf8DecodeOne l with
  | some p => (utf8Decode p.2).map (fun cs => Char.ofNat p.1 :: cs)
  | none => if l = [] then some [] else none
termination_by l.length
decreasing_by exact utf8DecodeOne_length h

/-- `impl Display for ChunkType`:
`f.write_str(&String::from_utf8(Vec::from(self.0)).unwrap())`.  `none`
models the `unwrap` panic on invalid UTF-8. -/
def ChunkType.to_string (self : ChunkType) : Option (List Char) :=
  utf8Decode self.chunk.toList

/-- `ChunkType::bytes`. -/
def ChunkType.bytes (self : ChunkType) : Chunk := self.chunk

/-- `ChunkType::is_critical`: `self.0[0].is_ascii_uppercase()`. -/
def ChunkType.is_critical (self : ChunkType) : Bool :=
  u8_is_ascii_uppercase self.chunk.b0

/-- `ChunkType::is_public`: `self.0[1].is_ascii_uppercase()`. -/
def ChunkType.is_public (self : ChunkType) : Bool :=
  u8_is_ascii_uppercase self.chunk.b1

/-- `ChunkType::is_reserved_bit_valid`: `self.0[2].is_ascii_uppercase()`. -/
def ChunkType.is_reserved_bit_valid (self : ChunkType) : Bool :=
  u8_is_ascii_uppercase self.chunk.b2

/-- `ChunkType::is_safe_to_copy`: `self.0[3].is_ascii_lowercase()`. -/
def ChunkType.is_safe_to_copy (self : ChunkType) : Bool :=
  u8_is_ascii_lowercase self.chunk.b3

/-- `ChunkType::is_valid`: `self.is_reserved_bit_valid()`. -/
def ChunkType.is_valid (self : ChunkType) : Bool :=
  self.is_reserved_bit_valid

theorem char_toNat_valid (c : Char) :
    c.toNat < 0xD800 ∨ (0xDFFF < c.toNat ∧ c.toNat < 0x110000) := c.valid

theorem char_toNat_lt (c : Char) : c.toNat < 0x110000 := by
  rcases char_toNat_valid c with h | h <;> omega

theorem char_toNat_ofNat {n : Nat} (h : n < 0xD800 ∨ (0xDFFF < n ∧ n < 0x110000)) :
    (Char.ofNat n).toNat = n := by
  have hv : Nat.isValidChar n := h
  simp [Char.ofNat, hv, Char.ofNatAux, Char.toNat, UInt32.toNat, BitVec.toNat_ofNatLt]

theorem utf8EncodeChar_ascii {c : Char} (h : c.toNat ≤ 0x7F) :
    utf8EncodeChar c = [c.toNat] := by
  simp only [utf8EncodeChar]
  rw [if_pos (by omega)]

theorem utf8Decode_eq_some {l : List Nat} {p : Nat × List Nat}
    (h : utf8DecodeOne l = some p) :
    utf8Decode l = (utf8Decode p.2).map (fun cs => Char.ofNat p.1 :: cs) := by
  rw [utf8Decode]
  split
  next p' h' => rw [h] at h'; cases h'; rfl
  next h' => rw [h] at h'; cases h'

theorem utf8Decode_nil : utf8Decode ([] : List Nat) = some [] := by
  rw [utf8Decode]
  rfl

theorem utf8DecodeOne_ascii {b : Nat} (hb : b ≤ 0x7F) (rest : List Nat) :
    utf8DecodeOne (b :: rest) = some (b, rest) := by
  simp only [utf8DecodeOne]
  rw [if_pos hb]

theorem utf8DecodeOne_encodeChar (c : Char) (rest : List Nat) :
    utf8DecodeOne (utf8EncodeChar c ++ rest) = some (c.toNat, rest) := by
  have hv := char_toNat_valid c
  simp only [utf8EncodeChar]
  by_cases h1 : c.toNat < 0x80
  · rw [if_pos h1]
    simp only [List.cons_append, List.nil_append, utf8DecodeOne]
    rw [if_pos (by omega)]
  · rw [if_neg h1]
    by_cases h2 : c.toNat < 0x800
    · rw [if_pos h2]
      simp only [List.cons_append, List.nil_append, utf8DecodeOne]
      rw [if_neg (by omega), if_neg (by omega), if_pos (by omega),
        if_pos (by omega)]
      have harg : (0xC0 + c.toNat / 64 - 0xC0) * 64 + (0x80 + c.toNat % 64 - 0x80)
          = c.toNat := by omega
      rw [harg]
    · rw [if_neg h2]
      by_cases h3 : c.toNat < 0x10000
      · rw [if_pos h3]
        simp only [List.cons_append, List.nil_append, utf8DecodeOne]
        rw [if_neg (by omega), if_neg (by omega), if_neg (by omega),
          if_pos (by omega), if_pos (by omega)]
        have harg : (0xE0 + c.toNat / 4096 - 0xE0) * 4096 +
            (0x80 + c.toNat / 64 % 64 - 0x80) * 64 + (0x80 + c.toNat % 64 - 0x80)
            = c.toNat := by omega
        rw [harg]
      · rw [if_neg h3]
        have h4 := char_toNat_lt c
        simp only [List.cons_append, List.nil_append, utf8DecodeOne]
        rw [if_neg (by omega), if_neg (by omega), if_neg (by omega),
          if_neg (by omega), if_pos (by omega), if_pos (by omega)]
        have harg : (0xF0 + c.toNat / 0x40000 - 0xF0) * 0x40000 +
            (0x80 + c.toNat / 4096 % 64 - 0x80) * 4096 +
            (0x80 + c.toNat / 64 % 64 - 0x80) * 64 + (0x80 + c.toNat % 64 - 0x80)
            = c.toNat := by omega
        rw [harg]

theorem utf8Decode_encodeChar (c : Char) (rest : List Nat) :
    utf8Decode (utf8EncodeChar c ++ rest) =
      (utf8Decode rest).map (fun cs => c :: cs) := by
  rw [utf8Decode_eq_some (utf8DecodeOne_encodeChar c rest)]
  simp only [Char.ofNat_toNat]

theorem utf8Decode_ascii {l : List Nat} (h : ∀ b ∈ l, b ≤ 0x7F) :
    utf8Decode l = some (l.map Char.ofNat) := by
  induction l with
  | nil => exact utf8Decode_nil
  | cons b rest ih =>
    rw [utf8Decode_eq_some (utf8DecodeOne_ascii (h b (by simp)) rest),
      ih (fun x hx => h x (by simp [hx]))]
    rfl

theorem utf8Decode_str_as_bytes (s : List Char) :
    utf8Decode (str_as_bytes s) = some s := by
  induction s with
  | nil => exact utf8Decode_nil
  | cons c rest ih =>
    simp only [str_as_bytes, List.flatMap_cons] at ih ⊢
    rw [utf8Decode_encodeChar, ih]
    rfl

theorem str_as_bytes_ascii {s : List Char} (h : ∀ c ∈ s, c.toNat ≤ 0x7F) :
    str_as_bytes s = s.map Char.toNat := by
  induction s with
  | nil => rfl
  | cons c rest ih =>
    simp only [str_as_bytes, List.flatMap_cons, List.map_cons] at ih ⊢
    rw [utf8EncodeChar_ascii (h c (by simp)),
      ih (fun x hx => h x (by simp [hx]))]
    rfl

theorem from_slice_eq_some : ∀ {l : List Nat} {t : ChunkType},
    ChunkType.from_slice l = some t → l = t.chunk.toList ∧ l.length = 4
  | [a, b, c, d], t, h => by
    simp only [ChunkType.from_slice, Option.some.injEq] at h
    subst h
    exact ⟨rfl, rfl⟩
  | [], t, h => by simp [ChunkType.from_slice] at h
  | [a], t, h => by simp [ChunkType.from_slice] at h
  | [a, b], t, h => by simp [ChunkType.from_slice] at h
  | [a, b, c], t, h => by simp [ChunkType.from_slice] at h
  | a :: b :: c :: d :: e :: l, t, h => by simp [ChunkType.from_slice] at h

theorem from_slice_isSome_iff (l : List Nat) :
    (∃ t, ChunkType.from_slice l = some t) ↔ l.length = 4 := by
  constructor
  · rintro ⟨t, ht⟩
    exact (from_slice_eq_some ht).2
  · intro hl
    match l, hl with
    | [a, b, c, d], _ => exact ⟨⟨⟨a, b, c, d⟩⟩, rfl⟩

/-- C1 (counterexample): the claim says `try_from` fails on any 4-byte
sequence containing a non-ASCII-alphabetic byte; but on `[49, 50, 51, 52]`
(`"1234"`, no byte alphabetic) it succeeds, because the source tests
`is_ascii`, not `is_ascii_alphabetic`. -/
theorem try_from_accepts_nonalphabetic_bytes :
    ChunkType.try_from ⟨49, 50, 51, 52⟩ = .ok ⟨⟨49, 50, 51, 52⟩⟩ ∧
    u8_is_ascii_alphabetic 49 = false ∧ u8_is_ascii_alphabetic 50 = false ∧
    u8_is_ascii_alphabetic 51 = false ∧ u8_is_ascii_alphabetic 52 = false := by
  decide

/-- C1 (amended): `try_from` succeeds — holding the bytes unchanged — if and
only if every one of the 4 input bytes is ASCII (value at most 127); for
every 4-byte sequence containing at least one byte of 128 or more it fails
with the `InvalidChunk` error. -/
theorem try_from_succeeds_iff_ascii (v : Chunk)
    (h0 : v.b0 < 256) (h1 : v.b1 < 256) (h2 : v.b2 < 256) (h3 : v.b3 < 256) :
    (ChunkType.try_from v = .ok ⟨v⟩ ↔
      v.b0 ≤ 127 ∧ v.b1 ≤ 127 ∧ v.b2 ≤ 127 ∧ v.b3 ≤ 127) ∧
    (¬(v.b0 ≤ 127 ∧ v.b1 ≤ 127 ∧ v.b2 ≤ 127 ∧ v.b3 ≤ 127) →
      ChunkType.try_from v = .err .InvalidChunk) := by
  have hiff : v.is_ascii = true ↔
      (v.b0 ≤ 127 ∧ v.b1 ≤ 127 ∧ v.b2 ≤ 127 ∧ v.b3 ≤ 127) := by
    simp [Chunk.is_ascii, u8_is_ascii, Bool.and_eq_true, decide_eq_true_eq,
      and_assoc]
  constructor
  · by_cases hc : v.is_ascii = true
    · simp [ChunkType.try_from, hc, hiff.mp hc]
    · have hn : ¬(v.b0 ≤ 127 ∧ v.b1 ≤ 127 ∧ v.b2 ≤ 127 ∧ v.b3 ≤ 127) :=
        fun hh => hc (hiff.mpr hh)
      simp [ChunkType.try_from, hc, hn]
  · intro hn
    have hc : ¬(v.is_ascii = true) := fun hh => hn (hiff.mp hh)
    simp [ChunkType.try_from, hc]

/-- C1 (witness): the amended characterisation applied to the concrete bytes
`[82, 117, 83, 116]` (`"RuSt"`). -/
theorem try_from_succeeds_iff_ascii_witness :
    (ChunkType.try_from ⟨82, 117, 83, 116⟩ = .ok ⟨⟨82, 117, 83, 116⟩⟩ ↔
      (82 : Nat) ≤ 127 ∧ (117 : Nat) ≤ 127 ∧ (83 : Nat) ≤ 127 ∧ (116 : Nat) ≤ 127) ∧
    (¬((82 : Nat) ≤ 127 ∧ (117 : Nat) ≤ 127 ∧ (83 : Nat) ≤ 127 ∧ (116 : Nat) ≤ 127) →
      ChunkType.try_from ⟨82, 117, 83, 116⟩ = .err .InvalidChunk) :=
  try_from_succeeds_iff_ascii ⟨82, 117, 83, 116⟩
    (by decide) (by decide) (by decide) (by decide)

/-- C5: for every 4-byte sequence in which each byte is ASCII-alphabetic,
`try_from` succeeds and `bytes` on the result returns exactly the original
sequence, unchanged and in order. -/
theorem try_from_alphabetic_succeeds_bytes_id (v : Chunk)
    (h : u8_is_ascii_alphabetic v.b0 = true ∧ u8_is_ascii_alphabetic v.b1 = true ∧
      u8_is_ascii_alphabetic v.b2 = true ∧ u8_is_ascii_alphabetic v.b3 = true) :
    ∃ t : ChunkType, ChunkType.try_from v = .ok t ∧ t.bytes = v := by
  refine ⟨⟨v⟩, ?_, rfl⟩
  have hc : v.is_ascii = true := by
    simp only [u8_is_ascii_alphabetic, u8_is_ascii_uppercase, u8_is_ascii_lowercase,
      Bool.or_eq_true, Bool.and_eq_true, decide_eq_true_eq] at h
    simp only [Chunk.is_ascii, u8_is_ascii, Bool.and_eq_true, decide_eq_true_eq]
    omega
  simp [ChunkType.try_from, hc]

/-- C5 (witness): the concrete bytes `[82, 117, 83, 116]` (`"RuSt"`). -/
theorem try_from_alphabetic_succeeds_bytes_id_witness :
    ∃ t : ChunkType, ChunkType.try_from ⟨82, 117, 83, 116⟩ = .ok t ∧
      t.bytes = ⟨82, 117, 83, 116⟩ :=
  try_from_alphabetic_succeeds_bytes_id ⟨82, 117, 83, 116⟩ (by decide)

/-- C6: `is_critical`, `is_public` and `is_reserved_bit_valid` hold exactly
when byte 0, 1, 2 respectively is an uppercase ASCII letter, and
`is_safe_to_copy` exactly when byte 3 is a lowercase ASCII letter; each flag
depends only on its designated byte. -/
theorem flag_accessors_read_designated_byte (t u : ChunkType) :
    (t.is_critical = true ↔ 65 ≤ t.bytes.b0 ∧ t.bytes.b0 ≤ 90) ∧
    (t.is_public = true ↔ 65 ≤ t.bytes.b1 ∧ t.bytes.b1 ≤ 90) ∧
    (t.is_reserved_bit_valid = true ↔ 65 ≤ t.bytes.b2 ∧ t.bytes.b2 ≤ 90) ∧
    (t.is_safe_to_copy = true ↔ 97 ≤ t.bytes.b3 ∧ t.bytes.b3 ≤ 122) ∧
    (t.bytes.b0 = u.bytes.b0 → t.is_critical = u.is_critical) ∧
    (t.bytes.b1 = u.bytes.b1 → t.is_public = u.is_public) ∧
    (t.bytes.b2 = u.bytes.b2 → t.is_reserved_bit_valid = u.is_reserved_bit_valid) ∧
    (t.bytes.b3 = u.bytes.b3 → t.is_safe_to_copy = u.is_safe_to_copy) := by
  refine ⟨?_, ?_, ?_, ?_, ?_, ?_, ?_, ?_⟩ <;>
    simp [ChunkType.is_critical, ChunkType.is_public, ChunkType.is_reserved_bit_valid,
      ChunkType.is_safe_to_copy, ChunkType.bytes, u8_is_ascii_uppercase,
      u8_is_ascii_lowercase, Bool.and_eq_true, decide_eq_true_eq] <;>
    (intro h; rw [h])

/-- C7: `is_valid` returns exactly `is_reserved_bit_valid` — true iff byte 2
is an uppercase ASCII letter — and depends only on byte 2, not on the other
three flags' bytes. -/
theorem is_valid_iff_reserved_bit (t u : ChunkType) :
    t.is_valid = t.is_reserved_bit_valid ∧
    (t.is_valid = true ↔ 65 ≤ t.bytes.b2 ∧ t.bytes.b2 ≤ 90) ∧
    (t.bytes.b2 = u.bytes.b2 → t.is_valid = u.is_valid) := by
  refine ⟨rfl, ?_, ?_⟩ <;>
    simp [ChunkType.is_valid, ChunkType.is_reserved_bit_valid, ChunkType.bytes,
      u8_is_ascii_uppercase, Bool.and_eq_true, decide_eq_true_eq] <;>
    (intro h; rw [h])

/-- C9: two `ChunkType` values are equal exactly when their 4-byte sequences
match byte for byte, with no case folding; and the instance built by
`try_from [82, 117, 83, 116]` equals the one built by `from_str "RuSt"`. -/
theorem chunk_type_eq_iff_bytes_eq (t u : ChunkType) :
    (t = u ↔ t.bytes.b0 = u.bytes.b0 ∧ t.bytes.b1 = u.bytes.b1 ∧
      t.bytes.b2 = u.bytes.b2 ∧ t.bytes.b3 = u.bytes.b3) ∧
    (∃ t1, ChunkType.try_from ⟨82, 117, 83, 116⟩ = .ok t1 ∧
      ChunkType.from_str char_is_alphabetic_latin1 ['R', 'u', 'S', 't'] = .ok t1) := by
  constructor
  · obtain ⟨⟨a, b, c, d⟩⟩ := t
    obtain ⟨⟨a2, b2, c2, d2⟩⟩ := u
    simp [ChunkType.bytes, ChunkType.mk.injEq, Chunk.mk.injEq]
  · exact ⟨⟨⟨82, 117, 83, 116⟩⟩, by decide, by decide⟩

/-- C10: both public constructors report every failure as the single error
value `InvalidChunk`; the declared variant `ErrorConvertFromString` is never
produced. -/
theorem constructor_errors_are_invalid_chunk (alpha : Char → Bool)
    (v : Chunk) (s : List Char) (e e2 : ChunkError) :
    (ChunkType.try_from v = .err e → e = .InvalidChunk) ∧
    (ChunkType.from_str alpha s = .err e2 → e2 = .InvalidChunk) := by
  constructor
  · intro h
    unfold ChunkType.try_from at h
    split at h <;> simp_all
  · intro h
    simp only [ChunkType.from_str] at h
    split at h <;> simp_all

/-- C2 (counterexample): `"éAB"` is 4 bytes long, every character is
alphabetic, yet its first byte `0xC3` is not ASCII-alphabetic — condition (c)
of the claim fails — and `from_str` still succeeds: the byte-level check (I1)
is not part of `from_str`. -/
theorem from_str_accepts_nonascii_bytes :
    ChunkType.from_str char_is_alphabetic_latin1 ['é', 'A', 'B'] =
      .ok ⟨⟨0xC3, 0xA9, 65, 66⟩⟩ ∧
    str_as_bytes ['é', 'A', 'B'] = [0xC3, 0xA9, 65, 66] ∧
    (['é', 'A', 'B'].all char_is_alphabetic_latin1) = true ∧
    u8_is_ascii_alphabetic 0xC3 = false := by
  decide

/-- C2 (amended): `from_str` succeeds if and only if the text's byte encoding
is exactly 4 bytes long and every character is alphabetic; no byte-level
ASCII check is performed, and on success the stored bytes are the text's
bytes.  Otherwise it fails with `InvalidChunk`. -/
theorem from_str_succeeds_iff_four_bytes_and_alphabetic (alpha : Char → Bool)
    (s : List Char) :
    ((∃ t, ChunkType.from_str alpha s = .ok t) ↔
      (str_as_bytes s).length = 4 ∧ s.all alpha = true) ∧
    (¬((str_as_bytes s).length = 4 ∧ s.all alpha = true) →
      ChunkType.from_str alpha s = .err .InvalidChunk) ∧
    (∀ t, ChunkType.from_str alpha s = .ok t → t.chunk.toList = str_as_bytes s) := by
  rcases ha : s.all alpha with _ | _
  · have hred : ChunkType.from_str alpha s = .err .InvalidChunk := by
      simp only [ChunkType.from_str, ha]
    refine ⟨?_, fun _ => hred, ?_⟩
    · rw [hred]
      simp [ha]
    · intro t ht
      rw [hred] at ht
      cases ht
  · rcases hp : ChunkType.from_slice (str_as_bytes s) with _ | t0
    · have h4 : ¬((str_as_bytes s).length = 4) := by
        intro h4
        rcases (from_slice_isSome_iff (str_as_bytes s)).mpr h4 with ⟨t, ht⟩
        rw [hp] at ht
        cases ht
      have hred : ChunkType.from_str alpha s = .err .InvalidChunk := by
        simp only [ChunkType.from_str, ha, hp]
      refine ⟨?_, fun _ => hred, ?_⟩
      · rw [hred]
        simp [h4]
      · intro t ht
        rw [hred] at ht
        cases ht
    · have hred : ChunkType.from_str alpha s = .ok t0 := by
        simp only [ChunkType.from_str, ha, hp]
      have hfs := from_slice_eq_some hp
      refine ⟨?_, ?_, ?_⟩
      · rw [hred]
        simp [hfs.2, ha]
      · intro hn
        exact absurd ⟨hfs.2, rfl⟩ hn
      · intro t ht
        rw [hred] at ht
        cases ht
        exact hfs.1.symm

/-- C4 (counterexample): `"Ché"` contains the two-byte character `'é'`, its
byte length is exactly 4, and `from_str` succeeds: an alphabetic multi-byte
character does slip through the byte-length coincidence. -/
theorem from_str_accepts_multibyte_char :
    (∃ c ∈ ['C', 'h', 'é'], 1 < (utf8EncodeChar c).length) ∧
    (str_as_bytes ['C', 'h', 'é']).length = 4 ∧
    ChunkType.from_str char_is_alphabetic_latin1 ['C', 'h', 'é'] =
      .ok ⟨⟨67, 104, 0xC3, 0xA9⟩⟩ := by
  decide

/-- C4 (amended): what the two checks do reject: every input string containing
at least one character on which the alphabetic test is false fails with
`InvalidChunk`, even when the string's byte length is exactly 4; a multi-byte
character that is alphabetic is not rejected. -/
theorem from_str_rejects_nonalphabetic_char (alpha : Char → Bool) (s : List Char)
    (c : Char) (hc : c ∈ s) (hna : alpha c = false) :
    ChunkType.from_str alpha s = .err .InvalidChunk := by
  have ha : s.all alpha = false := by
    rw [List.all_eq_false]
    exact ⟨c, hc, by simp [hna]⟩
  simp only [ChunkType.from_str, ha]

/-- C4 (witness): the spec's own example `"Ru1t"`, rejected because `'1'` is
not alphabetic. -/
theorem from_str_rejects_nonalphabetic_char_witness :
    ChunkType.from_str char_is_alphabetic_latin1 ['R', 'u', '1', 't'] =
      .err .InvalidChunk :=
  from_str_rejects_nonalphabetic_char char_is_alphabetic_latin1
    ['R', 'u', '1', 't'] '1' (by decide) (by decide)

/-- C3 (counterexample): `try_from` accepts `[48, 48, 48, 48]` (`"0000"`), the
rendering of the result is `"0000"`, and `from_str` rejects that string: the
round trip fails for an instance successfully constructed by `fromBytes`. -/
theorem roundtrip_fails_for_nonalphabetic_ascii :
    ChunkType.try_from ⟨48, 48, 48, 48⟩ = .ok ⟨⟨48, 48, 48, 48⟩⟩ ∧
    ChunkType.to_string ⟨⟨48, 48, 48, 48⟩⟩ = some ['0', '0', '0', '0'] ∧
    ChunkType.from_str char_is_alphabetic_latin1 ['0', '0', '0', '0'] =
      .err .InvalidChunk := by
  refine ⟨by decide, ?_, by decide⟩
  show utf8Decode [48, 48, 48, 48] = some ['0', '0', '0', '0']
  rw [@utf8Decode_ascii [48, 48, 48, 48] (by decide)]
  decide

/-- C3 (amended): the round-trip law `from_str (to_string x) = Ok x` holds for
every instance built by `from_str`, and for every instance built by
`try_from` from bytes that are all ASCII-alphabetic (the counterexample
forces excluding the non-alphabetic ASCII bytes `try_from` also accepts).
`alpha` is any model of `char::is_alphabetic`, assumed true on ASCII
letters. -/
theorem roundtrip_on_constructed (alpha : Char → Bool)
    (halpha : ∀ c : Char, u8_is_ascii_alphabetic c.toNat = true → alpha c = true) :
    (∀ v t, ChunkType.try_from v = .ok t →
      u8_is_ascii_alphabetic v.b0 = true → u8_is_ascii_alphabetic v.b1 = true →
      u8_is_ascii_alphabetic v.b2 = true → u8_is_ascii_alphabetic v.b3 = true →
      ∃ s, t.to_string = some s ∧ ChunkType.from_str alpha s = .ok t) ∧
    (∀ s t, ChunkType.from_str alpha s = .ok t →
      ∃ s2, t.to_string = some s2 ∧ ChunkType.from_str alpha s2 = .ok t) := by
  constructor
  · intro v t htf hb0 hb1 hb2 hb3
    obtain ⟨b0, b1, b2, b3⟩ := v
    have ha0 : u8_is_ascii_alphabetic b0 = true := hb0
    have ha1 : u8_is_ascii_alphabetic b1 = true := hb1
    have ha2 : u8_is_ascii_alphabetic b2 = true := hb2
    have ha3 : u8_is_ascii_alphabetic b3 = true := hb3
    simp only [u8_is_ascii_alphabetic, u8_is_ascii_uppercase, u8_is_ascii_lowercase,
      Bool.or_eq_true, Bool.and_eq_true, decide_eq_true_eq] at hb0 hb1 hb2 hb3
    have ht : t = ⟨⟨b0, b1, b2, b3⟩⟩ := by
      unfold ChunkType.try_from at htf
      split at htf
      next => cases htf; rfl
      next => cases htf
    subst ht
    have h0 : (Char.ofNat b0).toNat = b0 := char_toNat_ofNat (Or.inl (by omega))
    have h1 : (Char.ofNat b1).toNat = b1 := char_toNat_ofNat (Or.inl (by omega))
    have h2 : (Char.ofNat b2).toNat = b2 := char_toNat_ofNat (Or.inl (by omega))
    have h3 : (Char.ofNat b3).toNat = b3 := char_toNat_ofNat (Or.inl (by omega))
    refine ⟨[Char.ofNat b0, Char.ofNat b1, Char.ofNat b2, Char.ofNat b3], ?_, ?_⟩
    · show utf8Decode [b0, b1, b2, b3] = _
      rw [@utf8Decode_ascii [b0, b1, b2, b3]
        (by intro x hx; simp at hx; rcases hx with rfl | rfl | rfl | rfl <;> omega)]
      rfl
    · have a0 : alpha (Char.ofNat b0) = true := halpha _ (by rw [h0]; exact ha0)
      have a1 : alpha (Char.ofNat b1) = true := halpha _ (by rw [h1]; exact ha1)
      have a2 : alpha (Char.ofNat b2) = true := halpha _ (by rw [h2]; exact ha2)
      have a3 : alpha (Char.ofNat b3) = true := halpha _ (by rw [h3]; exact ha3)
      have hall : ([Char.ofNat b0, Char.ofNat b1, Char.ofNat b2,
          Char.ofNat b3].all alpha) = true := by
        simp [a0, a1, a2, a3]
      have e0 : utf8EncodeChar (Char.ofNat b0) = [b0] := by
        rw [utf8EncodeChar_ascii (by rw [h0]; omega), h0]
      have e1 : utf8EncodeChar (Char.ofNat b1) = [b1] := by
        rw [utf8EncodeChar_ascii (by rw [h1]; omega), h1]
      have e2 : utf8EncodeChar (Char.ofNat b2) = [b2] := by
        rw [utf8EncodeChar_ascii (by rw [h2]; omega), h2]
      have e3 : utf8EncodeChar (Char.ofNat b3) = [b3] := by
        rw [utf8EncodeChar_ascii (by rw [h3]; omega), h3]
      have hsb : str_as_bytes [Char.ofNat b0, Char.ofNat b1, Char.ofNat b2,
          Char.ofNat b3] = [b0, b1, b2, b3] := by
        simp [str_as_bytes, e0, e1, e2, e3]
      simp only [ChunkType.from_str, hall, hsb, ChunkType.from_slice]
  · intro s t h
    have hma : s.all alpha = true ∧
        ChunkType.from_slice (str_as_bytes s) = some t := by
      rcases ha : s.all alpha with _ | _
      · simp only [ChunkType.from_str, ha] at h
        cases h
      · rcases hp : ChunkType.from_slice (str_as_bytes s) with _ | t0
        · simp only [ChunkType.from_str, ha, hp] at h
          cases h
        · simp only [ChunkType.from_str, ha, hp] at h
          cases h
          exact ⟨rfl, rfl⟩
    have hfs := from_slice_eq_some hma.2
    refine ⟨s, ?_, h⟩
    show utf8Decode t.chunk.toList = some s
    rw [← hfs.1, utf8Decode_str_as_bytes]

/-- C3 (witness): the round-trip law instantiated at
`char_is_alphabetic_latin1`, which is true on every ASCII letter. -/
theorem roundtrip_on_constructed_witness :
    (∀ v t, ChunkType.try_from v = .ok t →
      u8_is_ascii_alphabetic v.b0 = true → u8_is_ascii_alphabetic v.b1 = true →
      u8_is_ascii_alphabetic v.b2 = true → u8_is_ascii_alphabetic v.b3 = true →
      ∃ s, t.to_string = some s ∧
        ChunkType.from_str char_is_alphabetic_latin1 s = .ok t) ∧
    (∀ s t, ChunkType.from_str char_is_alphabetic_latin1 s = .ok t →
      ∃ s2, t.to_string = some s2 ∧
        ChunkType.from_str char_is_alphabetic_latin1 s2 = .ok t) :=
  roundtrip_on_constructed char_is_alphabetic_latin1
    (fun c h => by simp [char_is_alphabetic_latin1, h])

/-- C8: `to_string` is total on every instance built through either public
constructor: such an instance's stored bytes are valid UTF-8 (all-ASCII for
`try_from`, the text's own encoding for `from_str`), so the `unwrap` on the
UTF-8 decoding is unreachable and the rendering never panics. -/
theorem to_string_total_on_constructed (alpha : Char → Bool) (v : Chunk)
    (s : List Char) (t t2 : ChunkType) :
    (ChunkType.try_from v = .ok t → ∃ s1, t.to_string = some s1) ∧
    (ChunkType.from_str alpha s = .ok t2 → ∃ s2, t2.to_string = some s2) := by
  constructor
  · intro h
    have hsubst : t = ⟨v⟩ ∧ v.is_ascii = true := by
      unfold ChunkType.try_from at h
      split at h
      next hc => cases h; exact ⟨rfl, hc⟩
      next => cases h
    obtain ⟨rfl, hascii⟩ := hsubst
    obtain ⟨b0, b1, b2, b3⟩ := v
    simp only [Chunk.is_ascii, u8_is_ascii, Bool.and_eq_true, decide_eq_true_eq]
      at hascii
    refine ⟨[b0, b1, b2, b3].map Char.ofNat, ?_⟩
    show utf8Decode [b0, b1, b2, b3] = _
    exact @utf8Decode_ascii [b0, b1, b2, b3]
      (by intro x hx; simp at hx; rcases hx with rfl | rfl | rfl | rfl <;> omega)
  · intro h
    have hma : ChunkType.from_slice (str_as_bytes s) = some t2 := by
      rcases ha : s.all alpha with _ | _
      · simp only [ChunkType.from_str, ha] at h
        cases h
      · rcases hp : ChunkType.from_slice (str_as_bytes s) with _ | t0
        · simp only [ChunkType.from_str, ha, hp] at h
          cases h
        · simp only [ChunkType.from_str, ha, hp] at h
          cases h
          exact rfl
    have hfs := from_slice_eq_some hma
    refine ⟨s, ?_⟩
    show utf8Decode t2.chunk.toList = some s
    rw [← hfs.1, utf8Decode_str_as_bytes]

end Png
